import Mathlib

/-!
# Verification of the vox-movearound infrastructure core

Shallow embedding of the repository's configuration-resolution, naming,
tagging, validation, graph-assembly and authorizer logic, with theorems
checking the natural-language specification against it.

Python dictionaries are embedded as insertion-ordered association lists
(`Dict`); Python `KeyError` on subscript access becomes an explicit error
value; the ambient clock (`datetime.now()`) becomes an explicit `now`
parameter.
-/

namespace VoxMove

/-- A Python `dict[str, str]` as an insertion-ordered association list. -/
abbrev Dict := List (String × String)

/-- `m[k]` as a total lookup: the value at the first entry whose key is `k`. -/
def dictGet (m : Dict) (k : String) : Option String :=
  (m.find? (fun p => p.1 == k)).map (·.2)

/-- `k in m` for a Python dict. -/
def dictContains (m : Dict) (k : String) : Bool :=
  m.any (fun p => p.1 == k)

/-- `m.get(k, d)` for a Python dict. -/
def dictGetD (m : Dict) (k d : String) : String :=
  (dictGet m k).getD d

/-- `m[k] = v` on a Python dict: replaces the value in place when the key is
present (keeping insertion order), otherwise appends a fresh entry. -/
def dictInsert (m : Dict) (k v : String) : Dict :=
  if m.any (fun p => p.1 == k) then
    m.map (fun p => if p.1 == k then (k, v) else p)
  else
    m ++ [(k, v)]

/-- `{**d, **o}` in `src/infrastructure/app.py` line 21: start from the
entries of `d` and insert every entry of `o` in order (shallow key-level
override, no recursive merging). -/
def dictMerge (d o : Dict) : Dict :=
  o.foldl (fun m p => dictInsert m p.1 p.2) d

theorem dictGet_cons_of_pos (p : String × String) (m : Dict) (k : String)
    (h : p.1 = k) : dictGet (p :: m) k = some p.2 := by
  unfold dictGet
  rw [List.find?_cons_of_pos _ (by simpa using h)]
  rfl

theorem dictGet_cons_of_neg (p : String × String) (m : Dict) (k : String)
    (h : p.1 ≠ k) : dictGet (p :: m) k = dictGet m k := by
  unfold dictGet
  rw [List.find?_cons_of_neg _ (by simpa using h)]

theorem dictGet_map_replace_ne (m : Dict) (k v k' : String) (hne : k' ≠ k) :
    dictGet (m.map (fun p => if p.1 == k then (k, v) else p)) k' = dictGet m k' := by
  induction m with
  | nil => rfl
  | cons p m ih =>
    rw [List.map_cons]
    by_cases hp : p.1 = k
    · have hf : (if (p.1 == k) = true then (k, v) else p) = (k, v) := by
        simp [hp]
      rw [hf, dictGet_cons_of_neg (k, v) _ k' (fun h => hne h.symm),
        dictGet_cons_of_neg p m k' (by rw [hp]; exact fun h => hne h.symm)]
      exact ih
    · have hf : (if (p.1 == k) = true then (k, v) else p) = p := by
        simp [hp]
      rw [hf]
      by_cases hp' : p.1 = k'
      · rw [dictGet_cons_of_pos p _ k' hp', dictGet_cons_of_pos p m k' hp']
      · rw [dictGet_cons_of_neg p _ k' hp', dictGet_cons_of_neg p m k' hp']
        exact ih

theorem dictGet_map_replace_eq (m : Dict) (k v : String)
    (h : m.any (fun p => p.1 == k) = true) :
    dictGet (m.map (fun p => if p.1 == k then (k, v) else p)) k = some v := by
  induction m with
  | nil => simp at h
  | cons p m ih =>
    rw [List.map_cons]
    by_cases hp : p.1 = k
    · have hf : (if (p.1 == k) = true then (k, v) else p) = (k, v) := by
        simp [hp]
      rw [hf, dictGet_cons_of_pos (k, v) _ k rfl]
    · have hf : (if (p.1 == k) = true then (k, v) else p) = p := by
        simp [hp]
      have hm : m.any (fun p => p.1 == k) = true := by
        simpa [List.any_cons, hp] using h
      rw [hf, dictGet_cons_of_neg p _ k hp]
      exact ih hm

theorem dictGet_eq_none_iff (m : Dict) (k : String) :
    dictGet m k = none ↔ m.any (fun p => p.1 == k) = false := by
  induction m with
  | nil => simp [dictGet]
  | cons p m ih =>
    by_cases hp : p.1 = k
    · rw [dictGet_cons_of_pos p m k hp]
      simp [List.any_cons, hp]
    · rw [dictGet_cons_of_neg p m k hp]
      simp only [List.any_cons, beq_eq_false_iff_ne.mpr hp, Bool.false_or]
      exact ih

theorem dictGet_dictInsert (m : Dict) (k v k' : String) :
    dictGet (dictInsert m k v) k' = if k' = k then some v else dictGet m k' := by
  unfold dictInsert
  by_cases hany : m.any (fun p => p.1 == k) = true
  · rw [if_pos hany]
    by_cases hk : k' = k
    · subst hk
      rw [if_pos rfl]
      exact dictGet_map_replace_eq m k' v hany
    · rw [if_neg hk]
      exact dictGet_map_replace_ne m k v k' hk
  · have hany' : m.any (fun p => p.1 == k) = false := by
      simp only [Bool.not_eq_true] at hany
      exact hany
    rw [if_neg hany]
    unfold dictGet
    rw [List.find?_append]
    by_cases hk : k' = k
    · subst hk
      have hnone : m.find? (fun p => p.1 == k') = none := by
        have := (dictGet_eq_none_iff m k').mpr hany'
        unfold dictGet at this
        exact Option.map_eq_none'.mp this
      rw [hnone, if_pos rfl, List.find?_cons_of_pos _ (by simp)]
      rfl
    · rw [if_neg hk, List.find?_cons_of_neg _ (by simpa using fun h => hk h.symm),
        List.find?_nil, Option.or_none]

theorem dictGet_eq_none_of_not_mem (m : Dict) (k : String)
    (h : k ∉ m.map Prod.fst) : dictGet m k = none := by
  rw [dictGet_eq_none_iff]
  by_contra hc
  simp only [Bool.not_eq_false, List.any_eq_true] at hc
  obtain ⟨p, hp, hpk⟩ := hc
  exact h (List.mem_map.mpr ⟨p, hp, beq_iff_eq.mp hpk⟩)

/-- The key law of the two-level merge: a lookup in `{**d, **o}` prefers the
override document and falls back to the defaults document. Requires the
override document to have no duplicate keys (a Python dict never does). -/
theorem dictGet_dictMerge (d o : Dict) (h : (o.map Prod.fst).Nodup) (k : String) :
    dictGet (dictMerge d o) k = (dictGet o k).or (dictGet d k) := by
  induction o generalizing d with
  | nil => rfl
  | cons p o ih =>
    simp only [List.map_cons, List.nodup_cons] at h
    obtain ⟨hp, hnd⟩ := h
    have hstep : dictMerge d (p :: o) = dictMerge (dictInsert d p.1 p.2) o := rfl
    rw [hstep, ih (dictInsert d p.1 p.2) hnd]
    by_cases hk : k = p.1
    · subst hk
      have ho : dictGet o p.1 = none := dictGet_eq_none_of_not_mem o p.1 hp
      have hins : dictGet (dictInsert d p.1 p.2) p.1 = some p.2 := by
        rw [dictGet_dictInsert]
        exact if_pos rfl
      rw [ho, hins, dictGet_cons_of_pos p o p.1 rfl]
      rfl
    · have hins : dictGet (dictInsert d p.1 p.2) k = dictGet d k := by
        rw [dictGet_dictInsert]
        exact if_neg hk
      rw [hins, dictGet_cons_of_neg p o k (fun h => hk h.symm)]

/-- **C5.** The config merge `{**defaults, **overrides}` of
`src/infrastructure/app.py` is a shallow key-level override: on disjoint key
sets the result is the union of both mappings; a key present in both resolves
to the overrides value; a key present only in the defaults passes through
unchanged. -/
theorem config_merge_shallow_override (d o : Dict)
    (h : (o.map Prod.fst).Nodup) :
    ((∀ k, dictGet d k = none ∨ dictGet o k = none) →
      ∀ k, dictGet (dictMerge d o) k = (dictGet d k).or (dictGet o k)) ∧
    (∀ k vd vo, dictGet d k = some vd → dictGet o k = some vo →
      dictGet (dictMerge d o) k = some vo) ∧
    (∀ k vd, dictGet d k = some vd → dictGet o k = none →
      dictGet (dictMerge d o) k = some vd) := by
  refine ⟨?_, ?_, ?_⟩
  · intro hdisj k
    rw [dictGet_dictMerge d o h k]
    rcases hdisj k with hd | ho
    · rw [hd]
      cases dictGet o k <;> rfl
    · rw [ho]
      cases dictGet d k <;> rfl
  · intro k vd vo hd ho
    rw [dictGet_dictMerge d o h k, ho]
    rfl
  · intro k vd hd ho
    rw [dictGet_dictMerge d o h k, ho, hd]
    rfl

theorem config_merge_shallow_override_witness :
    dictGet (dictMerge [("a", "1"), ("b", "2")] [("b", "9"), ("c", "3")]) "b" = some "9" ∧
    dictGet (dictMerge [("a", "1"), ("b", "2")] [("b", "9"), ("c", "3")]) "a" = some "1" :=
  ⟨(config_merge_shallow_override [("a", "1"), ("b", "2")] [("b", "9"), ("c", "3")]
      (by decide)).2.1 "b" "2" "9" (by decide) (by decide),
   (config_merge_shallow_override [("a", "1"), ("b", "2")] [("b", "9"), ("c", "3")]
      (by decide)).2.2 "a" "1" (by decide) (by decide)⟩

/-- The fixed long-region → short-code table of `BaseStack._get_region_code`
(`src/infrastructure/stacks/base_stack.py`). -/
def region_map : Dict :=
  [("us-east-1", "use1"), ("us-west-2", "usw2"), ("eu-west-1", "euw1"),
   ("eu-central-1", "euc1"), ("ap-southeast-1", "apse1")]

/-- Python string slicing `s[:n]` (first `n` characters, or the whole string
when it is shorter). -/
def pySlice (s : String) (n : Nat) : String := ⟨s.data.take n⟩

/-- `BaseStack._get_region_code`: `region_map.get(self.region, self.region[:4])`. -/
def get_region_code (region : String) : String :=
  (dictGet region_map region).getD (pySlice region 4)

/-- `BaseStack.get_resource_name`: the `-`-joined naming convention
`{company_code}-{environment}-{region_code}-{service}-{resource_type}-{identifier}`. -/
def get_resource_name (company_code environment region_code service
    resource_type identifier : String) : String :=
  company_code ++ "-" ++ environment ++ "-" ++ region_code ++ "-" ++ service
    ++ "-" ++ resource_type ++ "-" ++ identifier

/-- Errors raised while the CDK app resolves config and builds stacks.
`keyError` is a Python `KeyError` from a dict subscript.
`missingConfiguration` is the error class named by the spec; nothing in the
source ever raises it, but the type carries it so the spec's sentence can be
stated. -/
inductive AppError where
  | keyError (key : String)
  | missingConfiguration (key : String)
deriving DecidableEq, Repr

/-- Observable actions of the deployment assembly, in execution order:
a stack name computed in `app.py`, a `Tags.of(self).add(...)` call, or an
`add_dependency(...)` call. -/
inductive Event where
  | stackNamed (name : String)
  | tagAdded (key value : String)
  | dependencyAdded (dependent dependency : String)
deriving DecidableEq, Repr

/-- The tag events of a trace. -/
def tagPairs (evs : List Event) : List (String × String) :=
  evs.filterMap (fun e =>
    match e with
    | .tagAdded k v => some (k, v)
    | _ => none)

/-- The environment-conditional block at the end of
`BaseStack._apply_standard_tags`: production stacks get `SLA` and
`CriticalityLevel`, development stacks get `AutoShutdown` and `Purpose`,
every other environment gets nothing. -/
def conditionalTags (config : Dict) (environment : String) : List (String × String) :=
  if environment == "prd" then
    [("SLA", dictGetD config "sla" "99.9"),
     ("CriticalityLevel", dictGetD config "criticality" "high")]
  else if environment == "dev" then
    [("AutoShutdown", "true"), ("Purpose", "development")]
  else []

/-- `BaseStack._apply_standard_tags` as a trace: each `Tags.of(self).add`
emits a `tagAdded` event; a dict subscript on a missing key aborts with a
`KeyError` after the tags already added. `now` is `datetime.now()` formatted
as `%Y-%m-%d`, made an explicit input. -/
def apply_standard_tags (config : Dict) (environment now : String) :
    List Event × Option AppError :=
  let t1 := Event.tagAdded "Environment" environment
  match dictGet config "project_name" with
  | none => ([t1], some (.keyError "project_name"))
  | some project =>
    let t2 := Event.tagAdded "Project" project
    match dictGet config "owner" with
    | none => ([t1, t2], some (.keyError "owner"))
    | some owner =>
      let t3 := Event.tagAdded "Owner" owner
      match dictGet config "cost_center" with
      | none => ([t1, t2, t3], some (.keyError "cost_center"))
      | some cost_center =>
        let rest := [("CostCenter", cost_center), ("ManagedBy", "cdk"),
          ("CreatedDate", now),
          ("DataClassification", dictGetD config "data_classification" "internal")]
          ++ conditionalTags config environment
        (t1 :: t2 :: t3 :: rest.map (fun p => Event.tagAdded p.1 p.2), none)

/-- One stack construction in `app.py`: the name f-string dereferences
`config["company_code"]`, `cdk.Environment` dereferences `config["region"]`,
then `BaseStack.__init__` dereferences `config["environment"]` and applies the
standard tags. The cloud-resource bodies of the stack subclasses run after
this initialization and touch none of the required configuration keys, so the
trace stops at the end of the base initialization. -/
def stackConstruct (config : Dict) (envVar now kind : String) :
    List Event × Option AppError :=
  match dictGet config "company_code" with
  | none => ([], some (.keyError "company_code"))
  | some company =>
    let e1 := Event.stackNamed (company ++ "-" ++ envVar ++ "-" ++ kind ++ "-stack")
    match dictGet config "region" with
    | none => ([e1], some (.keyError "region"))
    | some _region =>
      match dictGet config "environment" with
      | none => ([e1], some (.keyError "environment"))
      | some environment =>
        let (tagEvs, err) := apply_standard_tags config environment now
        (e1 :: tagEvs, err)

/-- The module-level flow of `src/infrastructure/app.py`: merge the two
configuration documents, then build the layer, lambda and traefik stacks in
order, recording the two `add_dependency` calls. `envVar` is
`os.getenv("ENVIRONMENT", "dev")`; `now` is the formatted current date. -/
def appRun (default_config env_config : Dict) (envVar now : String) :
    List Event × Option AppError :=
  let config := dictMerge default_config env_config
  let (e1, r1) := stackConstruct config envVar now "layer"
  match r1 with
  | some err => (e1, some err)
  | none =>
    let (e2, r2) := stackConstruct config envVar now "lambda"
    match r2 with
    | some err => (e1 ++ e2, some err)
    | none =>
      let d1 := Event.dependencyAdded "lambda" "layer"
      let (e3, r3) := stackConstruct config envVar now "traefik"
      match r3 with
      | some err => (e1 ++ e2 ++ [d1] ++ e3, some err)
      | none => (e1 ++ e2 ++ [d1] ++ e3 ++ [Event.dependencyAdded "traefik" "lambda"], none)

/-- The fixed required-key set of the spec's Config Resolver contract.
Modelled from the spec: the source has no such constant and performs no
required-key check. -/
def requiredKeys : List String :=
  ["company_code", "region", "environment", "project_name", "owner", "cost_center"]

/-- **C8.** `_get_region_code` returns the mapped short code for every region
in the fixed table, and for an unmapped region deterministically falls back
to its first four characters; in particular `"sa-east-1"` maps to `"sa-e"`. -/
theorem region_code_lookup_and_fallback :
    (∀ r c, dictGet region_map r = some c → get_region_code r = c) ∧
    (∀ r, dictGet region_map r = none → get_region_code r = pySlice r 4) ∧
    get_region_code "sa-east-1" = "sa-e" := by
  refine ⟨?_, ?_, by decide⟩
  · intro r c h
    unfold get_region_code
    rw [h]
    rfl
  · intro r h
    unfold get_region_code
    rw [h]
    rfl

theorem region_code_lookup_and_fallback_witness :
    get_region_code "us-east-1" = "use1" ∧ get_region_code "sa-east-1" = "sa-e" :=
  ⟨region_code_lookup_and_fallback.1 "us-east-1" "use1" (by decide),
   region_code_lookup_and_fallback.2.2⟩

theorem string_append_cancel_left (p a b : String) (h : p ++ a = p ++ b) : a = b := by
  have hd := congrArg String.data h
  rw [String.data_append, String.data_append] at hd
  have hab := List.append_cancel_left hd
  cases a
  cases b
  exact congrArg String.mk (by simpa using hab)

/-- **C9.** `get_resource_name` is deterministic (equal inputs give an
identical string) and injective in the `identifier` field when every other
field is held fixed. -/
theorem resource_name_deterministic_and_injective :
    (∀ c e r s t i, get_resource_name c e r s t i = get_resource_name c e r s t i) ∧
    (∀ c e r s t i₁ i₂, i₁ ≠ i₂ →
      get_resource_name c e r s t i₁ ≠ get_resource_name c e r s t i₂) := by
  refine ⟨fun _ _ _ _ _ _ => rfl, ?_⟩
  intro c e r s t i₁ i₂ hne heq
  unfold get_resource_name at heq
  exact hne (string_append_cancel_left _ _ _ heq)

theorem resource_name_deterministic_and_injective_witness :
    get_resource_name "acme" "dev" "use1" "api" "fn" "a" ≠
      get_resource_name "acme" "dev" "use1" "api" "fn" "b" :=
  resource_name_deterministic_and_injective.2 "acme" "dev" "use1" "api" "fn" "a" "b"
    (by decide)

/-- The mandatory tag keys: the seven unconditional `Tags.of(self).add` calls
of `_apply_standard_tags`, equal to the validator's `mandatory_tags` set. -/
def mandatory_tags : List String :=
  ["Environment", "Project", "Owner", "CostCenter", "ManagedBy", "CreatedDate",
   "DataClassification"]

theorem tagPairs_map_tagAdded (l : List (String × String)) :
    tagPairs (l.map (fun p => Event.tagAdded p.1 p.2)) = l := by
  induction l with
  | nil => rfl
  | cons p l ih => simp [tagPairs] at ih ⊢; exact ih

theorem apply_standard_tags_keys (config : Dict) (env now p o c : String)
    (hp : dictGet config "project_name" = some p)
    (ho : dictGet config "owner" = some o)
    (hc : dictGet config "cost_center" = some c) :
    (tagPairs (apply_standard_tags config env now).1).map Prod.fst =
      mandatory_tags ++ (conditionalTags config env).map Prod.fst := by
  have hmapped := tagPairs_map_tagAdded
    ([("CostCenter", c), ("ManagedBy", "cdk"), ("CreatedDate", now),
      ("DataClassification", dictGetD config "data_classification" "internal")]
      ++ conditionalTags config env)
  simp only [apply_standard_tags, hp, ho, hc]
  simp only [tagPairs, List.filterMap_cons] at hmapped ⊢
  rw [hmapped]
  simp [mandatory_tags]

/-- **C6.** The emitted tag set always contains every mandatory key; for
`environment = "prd"` it additionally contains the `SLA` and
`CriticalityLevel` tags; for `"dev"` it additionally contains `AutoShutdown`;
for any other environment value (such as `"stg"`) its keys are exactly the
mandatory keys — neither conditional branch fires. -/
theorem tag_set_mandatory_and_conditional (config : Dict) (env now p o c : String)
    (hp : dictGet config "project_name" = some p)
    (ho : dictGet config "owner" = some o)
    (hc : dictGet config "cost_center" = some c) :
    (∀ k ∈ mandatory_tags,
      k ∈ (tagPairs (apply_standard_tags config env now).1).map Prod.fst) ∧
    (env = "prd" →
      "SLA" ∈ (tagPairs (apply_standard_tags config env now).1).map Prod.fst ∧
      "CriticalityLevel" ∈ (tagPairs (apply_standard_tags config env now).1).map Prod.fst) ∧
    (env = "dev" →
      "AutoShutdown" ∈ (tagPairs (apply_standard_tags config env now).1).map Prod.fst) ∧
    (env ≠ "prd" → env ≠ "dev" →
      (tagPairs (apply_standard_tags config env now).1).map Prod.fst = mandatory_tags) := by
  have hkeys := apply_standard_tags_keys config env now p o c hp ho hc
  refine ⟨?_, ?_, ?_, ?_⟩
  · intro k hk
    rw [hkeys]
    exact List.mem_append_left _ hk
  · intro henv
    subst henv
    rw [hkeys]
    refine ⟨?_, ?_⟩ <;> simp [conditionalTags]
  · intro henv
    subst henv
    rw [hkeys]
    simp [conditionalTags]
  · intro hprd hdev
    rw [hkeys]
    simp [conditionalTags, beq_eq_false_iff_ne.mpr hprd, beq_eq_false_iff_ne.mpr hdev]

theorem tag_set_mandatory_and_conditional_witness :
    (tagPairs (apply_standard_tags
      [("project_name", "pr"), ("owner", "ow"), ("cost_center", "cc")]
      "stg" "2024-01-15").1).map Prod.fst = mandatory_tags :=
  (tag_set_mandatory_and_conditional
      [("project_name", "pr"), ("owner", "ow"), ("cost_center", "cc")]
      "stg" "2024-01-15" "pr" "ow" "cc" (by decide) (by decide) (by decide)).2.2.2
    (by decide) (by decide)

/-- **C3 counterexample.** The tag set attached to a stack does not depend
only on the effective configuration and the environment: two runs on the same
configuration and environment but on different days produce different tag
sets, because `_apply_standard_tags` stamps `CreatedDate` from
`datetime.now()`. -/
theorem tag_set_depends_on_clock :
    tagPairs (apply_standard_tags
      [("project_name", "pr"), ("owner", "ow"), ("cost_center", "cc")]
      "stg" "2024-01-15").1 ≠
    tagPairs (apply_standard_tags
      [("project_name", "pr"), ("owner", "ow"), ("cost_center", "cc")]
      "stg" "2024-01-16").1 := by
  decide

/-- The configuration keys read by `_apply_standard_tags`. -/
def tagConfigKeys : List String :=
  ["project_name", "owner", "cost_center", "data_classification", "sla", "criticality"]

/-- **C3 amended.** Every component operation is a deterministic function of
its explicit inputs, where the tag application additionally takes the current
date: the emitted tag trace depends only on the six configuration keys it
reads, the environment value, and the current date (which becomes the
`CreatedDate` tag) — no other ambient state. -/
theorem tags_deterministic_in_explicit_inputs (cfg cfg' : Dict) (env now : String)
    (h : ∀ k ∈ tagConfigKeys, dictGet cfg k = dictGet cfg' k) :
    apply_standard_tags cfg env now = apply_standard_tags cfg' env now := by
  have h1 := h "project_name" (by decide)
  have h2 := h "owner" (by decide)
  have h3 := h "cost_center" (by decide)
  have h4 := h "data_classification" (by decide)
  have h5 := h "sla" (by decide)
  have h6 := h "criticality" (by decide)
  unfold apply_standard_tags conditionalTags dictGetD
  rw [h1, h2, h3, h4, h5, h6]

theorem tags_deterministic_in_explicit_inputs_witness :
    apply_standard_tags
      [("project_name", "pr"), ("owner", "ow"), ("cost_center", "cc"),
       ("region", "us-east-1")] "stg" "2024-01-15" =
    apply_standard_tags
      [("project_name", "pr"), ("owner", "ow"), ("cost_center", "cc"),
       ("region", "eu-west-1")] "stg" "2024-01-15" :=
  tags_deterministic_in_explicit_inputs _ _ "stg" "2024-01-15" (by decide)

/-- **C1 counterexample.** A merged configuration lacking the required key
`owner` does not abort with a `MissingConfiguration` error before naming and
tagging: the run fails with Python's `KeyError("owner")`, and only after the
layer stack has already been named and tagged with `Environment` and
`Project`. -/
theorem config_resolution_no_precheck_counterexample :
    ("owner" ∈ requiredKeys ∧
      dictGet (dictMerge
        [("company_code", "acme"), ("region", "us-east-1"), ("environment", "dev"),
         ("project_name", "pr"), ("cost_center", "cc")] []) "owner" = none) ∧
    (appRun
      [("company_code", "acme"), ("region", "us-east-1"), ("environment", "dev"),
       ("project_name", "pr"), ("cost_center", "cc")] [] "dev" "2024-01-15").2 =
      some (.keyError "owner") ∧
    (appRun
      [("company_code", "acme"), ("region", "us-east-1"), ("environment", "dev"),
       ("project_name", "pr"), ("cost_center", "cc")] [] "dev" "2024-01-15").1 =
      [.stackNamed "acme-dev-layer-stack", .tagAdded "Environment" "dev",
       .tagAdded "Project" "pr"] := by
  decide

/-- **C1 amended.** After the merge there is no required-key check and no
`MissingConfiguration` error: whenever a required key is absent from the
merged configuration, the run fails with a Python `KeyError` naming a missing
required key, raised at its first dereference while the first stack is being
constructed (and so possibly after naming and tagging events have occurred). -/
theorem missing_required_key_fails_with_keyerror
    (d o : Dict) (envVar now : String)
    (h : ∃ k ∈ requiredKeys, dictGet (dictMerge d o) k = none) :
    ∃ k ∈ requiredKeys, (appRun d o envVar now).2 = some (.keyError k) ∧
      dictGet (dictMerge d o) k = none := by
  cases hcc : dictGet (dictMerge d o) "company_code" with
  | none =>
    exact ⟨"company_code", by decide, by simp [appRun, stackConstruct, hcc], hcc⟩
  | some company =>
  cases hr : dictGet (dictMerge d o) "region" with
  | none =>
    exact ⟨"region", by decide, by simp [appRun, stackConstruct, hcc, hr], hr⟩
  | some region =>
  cases he : dictGet (dictMerge d o) "environment" with
  | none =>
    exact ⟨"environment", by decide, by simp [appRun, stackConstruct, hcc, hr, he], he⟩
  | some environment =>
  cases hpn : dictGet (dictMerge d o) "project_name" with
  | none =>
    exact ⟨"project_name", by decide,
      by simp [appRun, stackConstruct, apply_standard_tags, hcc, hr, he, hpn], hpn⟩
  | some project =>
  cases how : dictGet (dictMerge d o) "owner" with
  | none =>
    exact ⟨"owner", by decide,
      by simp [appRun, stackConstruct, apply_standard_tags, hcc, hr, he, hpn, how], how⟩
  | some owner =>
  cases hco : dictGet (dictMerge d o) "cost_center" with
  | none =>
    exact ⟨"cost_center", by decide,
      by simp [appRun, stackConstruct, apply_standard_tags, hcc, hr, he, hpn, how, hco], hco⟩
  | some cost_center =>
    obtain ⟨k, hk, hnone⟩ := h
    simp only [requiredKeys, List.mem_cons, List.mem_singleton] at hk
    rcases hk with rfl | rfl | rfl | rfl | rfl | rfl | hfalse
    · rw [hcc] at hnone; cases hnone
    · rw [hr] at hnone; cases hnone
    · rw [he] at hnone; cases hnone
    · rw [hpn] at hnone; cases hnone
    · rw [how] at hnone; cases hnone
    · rw [hco] at hnone; cases hnone
    · cases hfalse

theorem missing_required_key_fails_with_keyerror_witness :
    ∃ k ∈ requiredKeys,
      (appRun
        [("company_code", "acme"), ("region", "us-east-1"), ("environment", "dev"),
         ("project_name", "pr"), ("cost_center", "cc")] [] "dev" "2024-01-15").2 =
        some (.keyError k) ∧
      dictGet (dictMerge
        [("company_code", "acme"), ("region", "us-east-1"), ("environment", "dev"),
         ("project_name", "pr"), ("cost_center", "cc")] []) k = none :=
  missing_required_key_fails_with_keyerror _ [] "dev" "2024-01-15"
    ⟨"owner", by decide, by decide⟩

/-- `TagValidator.valid_environments` (`src/scripts/validate_tags.py`). -/
def valid_environments : List String := ["dev", "stg", "prd"]

/-- `TagValidator.valid_data_classifications`. -/
def valid_data_classifications : List String :=
  ["public", "internal", "confidential", "restricted"]

/-- Split a character list at every `'-'` (Python `str.split("-")` shape,
used to model `strptime` field extraction). -/
def splitOnDash : List Char → List (List Char)
  | [] => [[]]
  | c :: rest =>
    if c = '-' then [] :: splitOnDash rest
    else
      match splitOnDash rest with
      | g :: gs => (c :: g) :: gs
      | [] => [[c]]

/-- Digits-only numeral value, `none` when empty or non-numeric. -/
def digitsToNat (cs : List Char) : Option Nat :=
  if cs ≠ [] ∧ cs.all Char.isDigit then
    some (cs.foldl (fun n c => n * 10 + (c.toNat - 48)) 0)
  else none

/-- Gregorian leap year, as Python's `datetime` uses. -/
def isLeapYear (y : Nat) : Bool :=
  y % 4 == 0 && (y % 100 != 0 || y % 400 == 0)

def daysInMonth (y m : Nat) : Nat :=
  if m ∈ [1, 3, 5, 7, 8, 10, 12] then 31
  else if m ∈ [4, 6, 9, 11] then 30
  else if m = 2 then (if isLeapYear y then 29 else 28)
  else 0

/-- Modelled from the spec: `datetime.strptime(value, "%Y-%m-%d")` succeeding
(the date parser lives in the Python standard library, not in this
repository). `%Y` takes exactly four digits, `%m`/`%d` one or two, and the
triple must be a real calendar date with year at least 1. -/
def parseStrptimeYMD (s : String) : Bool :=
  match splitOnDash s.data with
  | [ys, ms, ds] =>
    match digitsToNat ys, digitsToNat ms, digitsToNat ds with
    | some y, some m, some d =>
      decide (ys.length = 4 ∧ ms.length ≤ 2 ∧ ds.length ≤ 2 ∧
        1 ≤ y ∧ 1 ≤ m ∧ m ≤ 12 ∧ 1 ≤ d ∧ d ≤ daysInMonth y m)
    | _, _, _ => false
  | _ => false

/-- The set difference `mandatory_tags - tags.keys()` of
`TagValidator.validate_tags`, in the order of the mandatory list (Python
iterates a set here; only membership is specified). -/
def missing_tags (tags : Dict) : List String :=
  mandatory_tags.filter (fun t => !(dictContains tags t))

/-- `TagValidator.validate_tags` (`src/scripts/validate_tags.py`): collect
missing-mandatory, environment, data-classification and created-date
violations, in source order, into one list. -/
def validate_tags (tags : Dict) : List String :=
  let errors1 : List String :=
    if (missing_tags tags).isEmpty then []
    else ["Missing mandatory tags: " ++ String.intercalate ", " (missing_tags tags)]
  let errors2 : List String :=
    match dictGet tags "Environment" with
    | some v => if v ∈ valid_environments then [] else ["Invalid Environment tag: " ++ v]
    | none => []
  let errors3 : List String :=
    match dictGet tags "DataClassification" with
    | some v =>
      if v ∈ valid_data_classifications then []
      else ["Invalid DataClassification: " ++ v]
    | none => []
  let errors4 : List String :=
    match dictGet tags "CreatedDate" with
    | some v => if parseStrptimeYMD v then [] else ["Invalid CreatedDate format: " ++ v]
    | none => []
  errors1 ++ errors2 ++ errors3 ++ errors4

/-- The compliant example tag set from `validate_tags.py`'s `main`. -/
def test_tags : Dict :=
  [("Environment", "dev"), ("Project", "lambda-monorepo"), ("Owner", "platform-team"),
   ("CostCenter", "ENG-001"), ("ManagedBy", "cdk"), ("CreatedDate", "2024-01-15"),
   ("DataClassification", "internal")]

/-- **C7.** `validate_tags` is a total function returning a violation list:
a tag set missing `Owner` yields a missing-tags violation whose message is
built from a list containing `Owner`; a `DataClassification` value outside
the enumerated set yields a classification violation naming that value; a
fully compliant tag set yields the empty list. -/
theorem validator_checks (tags : Dict) :
    (dictGet tags "Owner" = none →
      ∃ ms, ("Missing mandatory tags: " ++ String.intercalate ", " ms) ∈ validate_tags tags ∧
        "Owner" ∈ ms) ∧
    (∀ v, dictGet tags "DataClassification" = some v → v ∉ valid_data_classifications →
      ("Invalid DataClassification: " ++ v) ∈ validate_tags tags) ∧
    ((∀ t ∈ mandatory_tags, dictContains tags t = true) →
      (match dictGet tags "Environment" with
        | some v => v ∈ valid_environments
        | none => True) →
      (match dictGet tags "DataClassification" with
        | some v => v ∈ valid_data_classifications
        | none => True) →
      (match dictGet tags "CreatedDate" with
        | some v => parseStrptimeYMD v = true
        | none => True) →
      validate_tags tags = []) := by
  refine ⟨?_, ?_, ?_⟩
  · intro howner
    have hmem : "Owner" ∈ missing_tags tags := by
      apply List.mem_filter.mpr
      refine ⟨by decide, ?_⟩
      have := (dictGet_eq_none_iff tags "Owner").mp howner
      simp [dictContains, this]
    refine ⟨missing_tags tags, ?_, hmem⟩
    have hne : (missing_tags tags).isEmpty = false := by
      cases hcase : missing_tags tags with
      | nil => rw [hcase] at hmem; cases hmem
      | cons a l => rfl
    unfold validate_tags
    simp [hne]
  · intro v hv hnot
    unfold validate_tags
    rw [hv]
    simp [hnot]
  · intro h1 h2 h3 h4
    have hmissing : missing_tags tags = [] := by
      apply List.filter_eq_nil_iff.mpr
      intro t ht
      simp [h1 t ht]
    unfold validate_tags
    rw [hmissing]
    cases henv : dictGet tags "Environment" <;>
      cases hdc : dictGet tags "DataClassification" <;>
        cases hcd : dictGet tags "CreatedDate" <;>
          (rw [henv] at h2; rw [hdc] at h3; rw [hcd] at h4; simp_all)

theorem validator_checks_witness :
    validate_tags test_tags = [] :=
  (validator_checks test_tags).2.2 (by decide)
    (by show ("dev" : String) ∈ valid_environments; decide)
    (by show ("internal" : String) ∈ valid_data_classifications; decide)
    (by show parseStrptimeYMD "2024-01-15" = true; decide)

/-- One replacement pass for `pyReplace`, consuming at least one character of
the input per step (fuel keeps the recursion structural). -/
def replaceLoop (pat rep : List Char) : Nat → List Char → List Char
  | 0, cs => cs
  | fuel + 1, cs =>
    if pat ≠ [] ∧ pat.isPrefixOf cs then
      rep ++ replaceLoop pat rep fuel (cs.drop pat.length)
    else
      match cs with
      | [] => []
      | c :: rest => c :: replaceLoop pat rep fuel rest

/-- Python `s.replace(pat, rep)`: replace every non-overlapping occurrence of
`pat`, scanning left to right (modelled character-wise; `pat` is non-empty at
the only call site). -/
def pyReplace (s pat rep : String) : String :=
  ⟨replaceLoop pat.data rep.data (s.data.length + 1) s.data⟩

/-- A Python runtime value appearing in an authorizer context mapping. -/
inductive PyValue where
  | str (s : String)
  | int (n : Int)
deriving DecidableEq, Repr

/-- Python `str(v)`. -/
def pyStr : PyValue → String
  | .str s => s
  | .int n => toString n

/-- `AuthContext` (`src/layers/common/python/common/models.py`). -/
structure AuthContext where
  user_id : String
  email : Option String
  roles : List String
  expires_at : Option Int
deriving DecidableEq, Repr

/-- `AuthContext.to_dict`: flatten to the string-valued mapping forwarded to
API Gateway (`self.email or ""` and `... if self.expires_at else ""` are
Python truthiness: empty string and zero are falsy). -/
def AuthContext.to_dict (a : AuthContext) : List (String × String) :=
  [("userId", a.user_id),
   ("email", match a.email with
             | some e => if e = "" then "" else e
             | none => ""),
   ("roles", String.intercalate "," a.roles),
   ("expiresAt", match a.expires_at with
                 | some e => if e = 0 then "" else toString e
                 | none => "")]

/-- The decoded claims of a JWT payload (`payload.get` fields used by
`validate_token`). -/
structure Payload where
  sub : Option String
  email : Option String
  roles : List String
  exp : Option Int
deriving DecidableEq, Repr

/-- Outcome of `jwt.decode`, which is external library code: success with a
payload, `jwt.ExpiredSignatureError`, or any other `jwt.InvalidTokenError`.
The decoder is passed in as an oracle. -/
inductive DecodeResult where
  | ok (payload : Payload)
  | expired
  | invalid
deriving DecidableEq, Repr

/-- An exception escaping `validate_token`: a re-raised
`jwt.InvalidTokenError` with its message, or a Python `KeyError` from
`payload["sub"]`. -/
inductive TokenError where
  | invalidToken (msg : String)
  | keyError (key : String)
deriving DecidableEq, Repr

/-- `validate_token` (`src/layers/common/src/common/utils.py`): decode the
token, turn an expiry into `InvalidTokenError("Token has expired")`, re-raise
other invalid-token errors, and otherwise build the `AuthContext` (where
`payload["sub"]` raises `KeyError` when absent). -/
def validate_token (decode : String → DecodeResult) (token : String) :
    Except TokenError AuthContext :=
  match decode token with
  | .ok payload =>
    match payload.sub with
    | none => .error (.keyError "sub")
    | some sub => .ok ⟨sub, payload.email, payload.roles, payload.exp⟩
  | .expired => .error (.invalidToken "Token has expired")
  | .invalid => .error (.invalidToken "Invalid token")

/-- The IAM policy document built by `create_policy`. -/
structure Policy where
  principalId : String
  effect : String
  resource : String
  context : Option (List (String × String))
deriving DecidableEq, Repr

/-- `create_policy` (`src/layers/common/src/common/utils.py`): one
`execute-api:Invoke` statement with the given effect, plus a context mapping
whose values are coerced with `str(v)`; `if context:` is Python truthiness,
so an absent or empty mapping adds no context key. -/
def create_policy (principal_id effect resource : String)
    (context : Option (List (String × PyValue))) : Policy :=
  { principalId := principal_id
    effect := effect
    resource := resource
    context :=
      match context with
      | some ctx =>
        if ctx.isEmpty then none
        else some (ctx.map (fun p => (p.1, pyStr p.2)))
      | none => none }

/-- The fields of the API Gateway authorizer event that
`lambda_handler` reads (`event.get("authorizationToken", "")` and
`event["methodArn"]`). -/
structure AuthEvent where
  authorizationToken : Option String
  methodArn : Option String
deriving DecidableEq, Repr

/-- `lambda_handler` (`src/lambdas/authorizer/handler.py`): strip the
`"Bearer "` marker, raise `Unauthorized` on an empty token, then validate and
build an `Allow` policy; every exception of the `try` block — including the
`KeyError` of a missing `methodArn` — is caught and re-raised as the single
opaque `Unauthorized`. -/
def lambda_handler (decode : String → DecodeResult) (event : AuthEvent) :
    Except String Policy :=
  let token := pyReplace (event.authorizationToken.getD "") "Bearer " ""
  if token = "" then .error "Unauthorized"
  else
    match validate_token decode token with
    | .error _ => .error "Unauthorized"
    | .ok auth =>
      match event.methodArn with
      | none => .error "Unauthorized"
      | some arn =>
        .ok (create_policy auth.user_id "Allow" arn
          (some (auth.to_dict.map (fun p => (p.1, PyValue.str p.2)))))

theorem lambda_handler_ok_or_unauthorized (decode : String → DecodeResult)
    (event : AuthEvent) :
    (∃ p, lambda_handler decode event = .ok p) ∨
      lambda_handler decode event = .error "Unauthorized" := by
  by_cases htok : pyReplace (event.authorizationToken.getD "") "Bearer " "" = ""
  · right
    simp [lambda_handler, htok]
  · cases hval : validate_token decode
      (pyReplace (event.authorizationToken.getD "") "Bearer " "") with
    | error e =>
      right
      simp [lambda_handler, htok, hval]
    | ok auth =>
      cases harn : event.methodArn with
      | none =>
        right
        simp [lambda_handler, htok, hval, harn]
      | some arn =>
        left
        exact ⟨create_policy auth.user_id "Allow" arn
            (some (auth.to_dict.map (fun p => (p.1, PyValue.str p.2)))),
          by simp [lambda_handler, htok, hval, harn]⟩

/-- **C4.** An empty or missing bearer token yields the single opaque
`Unauthorized` signal; every error the handler can return is exactly
`Unauthorized`; and an expired token (the decoder reporting
`ExpiredSignatureError`) also yields exactly `Unauthorized` — no distinct
"expired" detail ever reaches the caller. -/
theorem authorizer_opaque_unauthorized (decode : String → DecodeResult)
    (event : AuthEvent) :
    ((event.authorizationToken = none ∨
        pyReplace (event.authorizationToken.getD "") "Bearer " "" = "") →
      lambda_handler decode event = .error "Unauthorized") ∧
    (∀ msg, lambda_handler decode event = .error msg → msg = "Unauthorized") ∧
    (decode (pyReplace (event.authorizationToken.getD "") "Bearer " "") = .expired →
      lambda_handler decode event = .error "Unauthorized") := by
  refine ⟨?_, ?_, ?_⟩
  · intro h
    rcases h with h | h
    · have hempty : pyReplace "" "Bearer " "" = "" := by decide
      simp [lambda_handler, h, hempty]
    · simp [lambda_handler, h]
  · intro msg hmsg
    rcases lambda_handler_ok_or_unauthorized decode event with ⟨p, hp⟩ | herr
    · rw [hp] at hmsg
      cases hmsg
    · rw [herr] at hmsg
      cases hmsg
      rfl
  · intro h
    by_cases htok : pyReplace (event.authorizationToken.getD "") "Bearer " "" = ""
    · simp [lambda_handler, htok]
    · have hval : validate_token decode
          (pyReplace (event.authorizationToken.getD "") "Bearer " "") =
          .error (.invalidToken "Token has expired") := by
        simp [validate_token, h]
      simp [lambda_handler, htok, hval]

theorem authorizer_opaque_unauthorized_witness :
    lambda_handler (fun _ => .invalid) ⟨none, some "arn:aws:execute-api:abc"⟩ =
      .error "Unauthorized" ∧
    lambda_handler (fun _ => .expired) ⟨some "Bearer abc", some "arn:aws:execute-api:abc"⟩ =
      .error "Unauthorized" :=
  ⟨(authorizer_opaque_unauthorized (fun _ => .invalid)
      ⟨none, some "arn:aws:execute-api:abc"⟩).1 (Or.inl rfl),
   (authorizer_opaque_unauthorized (fun _ => .expired)
      ⟨some "Bearer abc", some "arn:aws:execute-api:abc"⟩).2.2 rfl⟩

/-- **C10.** Every successfully returned policy carries the constant effect
`"Allow"` with a context mapping obtained by string-coercing every value; no
input ever yields a `"Deny"` policy — the only non-Allow outcome of the
handler is the `Unauthorized` error. -/
theorem authorizer_allow_only (decode : String → DecodeResult) (event : AuthEvent) :
    (∀ p, lambda_handler decode event = .ok p →
      p.effect = "Allow" ∧
      ∃ ctx : List (String × PyValue),
        p.context = some (ctx.map (fun q => (q.1, pyStr q.2)))) ∧
    ((∃ p, lambda_handler decode event = .ok p ∧ p.effect = "Allow") ∨
      lambda_handler decode event = .error "Unauthorized") := by
  have hok : ∀ p, lambda_handler decode event = .ok p →
      p.effect = "Allow" ∧
      ∃ ctx : List (String × PyValue),
        p.context = some (ctx.map (fun q => (q.1, pyStr q.2))) := by
    intro p hp
    by_cases htok : pyReplace (event.authorizationToken.getD "") "Bearer " "" = ""
    · simp [lambda_handler, htok] at hp
    · cases hval : validate_token decode
        (pyReplace (event.authorizationToken.getD "") "Bearer " "") with
      | error e =>
        simp [lambda_handler, htok, hval] at hp
      | ok auth =>
        cases harn : event.methodArn with
        | none =>
          simp [lambda_handler, htok, hval, harn] at hp
        | some arn =>
          simp [lambda_handler, htok, hval, harn] at hp
          subst hp
          refine ⟨rfl, auth.to_dict.map (fun q => (q.1, PyValue.str q.2)), ?_⟩
          simp [create_policy, AuthContext.to_dict]
  refine ⟨hok, ?_⟩
  rcases lambda_handler_ok_or_unauthorized decode event with ⟨p, hp⟩ | herr
  · exact Or.inl ⟨p, hp, (hok p hp).1⟩
  · exact Or.inr herr

theorem authorizer_allow_only_witness :
    (create_policy "user123" "Allow" "arn:aws:execute-api:abc"
      (some ((AuthContext.mk "user123" none [] none).to_dict.map
        (fun p => (p.1, PyValue.str p.2))))).effect = "Allow" ∧
    ∃ ctx : List (String × PyValue),
      (create_policy "user123" "Allow" "arn:aws:execute-api:abc"
        (some ((AuthContext.mk "user123" none [] none).to_dict.map
          (fun p => (p.1, PyValue.str p.2))))).context =
        some (ctx.map (fun q => (q.1, pyStr q.2))) :=
  (authorizer_allow_only (fun _ => .ok ⟨some "user123", none, [], none⟩)
      ⟨some "Bearer abc", some "arn:aws:execute-api:abc"⟩).1 _ rfl

/-- Modelled from the spec: a stack specification handed to the Stack Graph
Builder — a unit name plus the identifiers of the units it depends on. The
repository realizes its fixed three-stack topology through external CDK
`add_dependency` calls in `app.py` (the `dependencyAdded` events of `appRun`);
the general builder component is not in the source, so it is modelled from
the spec's §4.4 contract. -/
structure StackSpec where
  name : String
  dependsOn : List String
deriving DecidableEq, Repr

/-- The declared unit names. -/
def specNames (specs : List StackSpec) : List String :=
  specs.map (fun s => s.name)

/-- Modelled from the spec: a unit is ready for emission once every
dependency naming a declared unit has already been emitted. -/
def ready (specs : List StackSpec) (emitted : List String) (s : StackSpec) : Bool :=
  s.dependsOn.all (fun d => decide (d ∈ specNames specs → d ∈ emitted))

/-- The first ready unit of the pending list, together with the rest. -/
def pickReady (specs : List StackSpec) (emitted : List String) :
    List StackSpec → Option (StackSpec × List StackSpec)
  | [] => none
  | t :: rest =>
    if ready specs emitted t then some (t, rest)
    else
      match pickReady specs emitted rest with
      | some (u, rest') => some (u, t :: rest')
      | none => none

inductive BuildError where
  | cyclicDependency
deriving DecidableEq, Repr

/-- Modelled from the spec: Kahn-style emission — repeatedly emit a unit all
of whose declared dependencies have been emitted; if pending units remain but
none is ready, the edge relation has a cycle and the builder rejects. -/
def emitLoop (specs : List StackSpec) :
    Nat → List String → List StackSpec → Except BuildError (List String)
  | fuel, emitted, pending =>
    match pending with
    | [] => .ok emitted
    | _ :: _ =>
      match fuel with
      | 0 => .error .cyclicDependency
      | fuel + 1 =>
        match pickReady specs emitted pending with
        | none => .error .cyclicDependency
        | some (s, rest) => emitLoop specs fuel (emitted ++ [s.name]) rest

/-- Modelled from the spec: the Stack Graph Builder's deployment order. -/
def buildOrder (specs : List StackSpec) : Except BuildError (List String) :=
  emitLoop specs specs.length [] specs

/-- The declared dependency edge relation: `DepEdge specs a b` says the
declared unit `b` depends on the declared unit `a`. -/
def DepEdge (specs : List StackSpec) (a b : String) : Prop :=
  ∃ s ∈ specs, s.name = b ∧ a ∈ s.dependsOn ∧ a ∈ specNames specs

theorem pickReady_spec (specs : List StackSpec) (emitted : List String) :
    ∀ (pending : List StackSpec) (s : StackSpec) (rest : List StackSpec),
    pickReady specs emitted pending = some (s, rest) →
    ready specs emitted s = true ∧ pending.Perm (s :: rest) := by
  intro pending
  induction pending with
  | nil =>
    intro s rest h
    simp [pickReady] at h
  | cons t rest0 ih =>
    intro s rest h
    by_cases hr : ready specs emitted t = true
    · simp only [pickReady, if_pos hr, Option.some.injEq, Prod.mk.injEq] at h
      obtain ⟨rfl, rfl⟩ := h
      exact ⟨hr, List.Perm.refl _⟩
    · simp only [pickReady, if_neg hr] at h
      cases hrec : pickReady specs emitted rest0 with
      | none => rw [hrec] at h; cases h
      | some pr =>
        obtain ⟨u, rest'⟩ := pr
        rw [hrec] at h
        simp only [Option.some.injEq, Prod.mk.injEq] at h
        obtain ⟨rfl, rfl⟩ := h
        obtain ⟨hready', hperm'⟩ := ih u rest' hrec
        refine ⟨hready', ?_⟩
        exact (hperm'.cons t).trans (List.Perm.swap u t rest')

theorem emitLoop_sound (specs : List StackSpec)
    (hnames : (specs.map (fun s => s.name)).Nodup) :
    ∀ (fuel : Nat) (pending : List StackSpec) (emitted order : List String),
    (∀ s ∈ pending, s ∈ specs) →
    (pending.map (fun s => s.name)).Nodup →
    (∀ s ∈ pending, s.name ∉ emitted) →
    (∀ s ∈ specs, s.name ∈ emitted ∨ s ∈ pending) →
    emitted.Nodup →
    (∀ s ∈ specs, s.name ∈ emitted →
      ∀ d ∈ s.dependsOn, d ∈ specNames specs → List.Sublist [d, s.name] emitted) →
    emitLoop specs fuel emitted pending = .ok order →
    order.Nodup ∧ (∀ s ∈ specs, s.name ∈ order) ∧
      (∀ s ∈ specs, ∀ d ∈ s.dependsOn, d ∈ specNames specs → List.Sublist [d, s.name] order) := by
  intro fuel
  induction fuel with
  | zero =>
    intro pending emitted order hpend hpnd hdisj hcov hend htopo hrun
    cases pending with
    | nil =>
      have horder : emitted = order := by
        simpa [emitLoop] using hrun
      subst horder
      refine ⟨hend, ?_, ?_⟩
      · intro s hs
        rcases hcov s hs with h | h
        · exact h
        · exact absurd h (List.not_mem_nil s)
      · intro s hs d hd hdecl
        rcases hcov s hs with h | h
        · exact htopo s hs h d hd hdecl
        · exact absurd h (List.not_mem_nil s)
    | cons t rest0 => simp [emitLoop] at hrun
  | succ fuel ih =>
    intro pending emitted order hpend hpnd hdisj hcov hend htopo hrun
    cases pending with
    | nil =>
      have horder : emitted = order := by
        simpa [emitLoop] using hrun
      subst horder
      refine ⟨hend, ?_, ?_⟩
      · intro s hs
        rcases hcov s hs with h | h
        · exact h
        · exact absurd h (List.not_mem_nil s)
      · intro s hs d hd hdecl
        rcases hcov s hs with h | h
        · exact htopo s hs h d hd hdecl
        · exact absurd h (List.not_mem_nil s)
    | cons t rest0 =>
      cases hpick : pickReady specs emitted (t :: rest0) with
      | none => simp [emitLoop, hpick] at hrun
      | some pr =>
        obtain ⟨s, rest⟩ := pr
        obtain ⟨hready, hperm⟩ := pickReady_spec specs emitted (t :: rest0) s rest hpick
        have hrun' : emitLoop specs fuel (emitted ++ [s.name]) rest = .ok order := by
          simpa [emitLoop, hpick] using hrun
        have hs_pending : s ∈ t :: rest0 := hperm.symm.subset (List.mem_cons_self s rest)
        have hs_specs : s ∈ specs := hpend s hs_pending
        have hpermmap : ((t :: rest0).map (fun s => s.name)).Perm
            (s.name :: rest.map (fun s => s.name)) := by
          simpa using hperm.map (fun s => s.name)
        have hnd' : (s.name :: rest.map (fun s => s.name)).Nodup :=
          (List.Perm.nodup_iff hpermmap).mp hpnd
        obtain ⟨hsnotin, hrestnd⟩ := List.nodup_cons.mp hnd'
        have hsub : ∀ u ∈ rest, u ∈ t :: rest0 :=
          fun u hu => hperm.symm.subset (List.mem_cons_of_mem s hu)
        apply ih rest (emitted ++ [s.name]) order
        · exact fun u hu => hpend u (hsub u hu)
        · exact hrestnd
        · intro u hu
          simp only [List.mem_append, List.mem_singleton]
          rintro (hin | heq)
          · exact hdisj u (hsub u hu) hin
          · exact hsnotin (heq ▸ List.mem_map_of_mem (fun s => s.name) hu)
        · intro u hu
          rcases hcov u hu with h | h
          · exact Or.inl (List.mem_append_left _ h)
          · have hmem : u ∈ s :: rest := hperm.subset h
            rcases List.mem_cons.mp hmem with rfl | hr
            · exact Or.inl (List.mem_append_right _ (List.mem_singleton_self _))
            · exact Or.inr hr
        · have hnot : s.name ∉ emitted := hdisj s hs_pending
          simp [List.nodup_append, hend, hnot]
        · intro u hu hmem d hd hdecl
          rcases List.mem_append.mp hmem with hin | heq
          · exact (htopo u hu hin d hd hdecl).trans (List.sublist_append_left _ _)
          · have hname : u.name = s.name := List.mem_singleton.mp heq
            have hus : u = s := List.inj_on_of_nodup_map hnames hu hs_specs hname
            subst hus
            have hde : d ∈ emitted := by
              have hall := List.all_eq_true.mp hready d hd
              exact of_decide_eq_true hall hdecl
            have h1 : List.Sublist [d] emitted := List.singleton_sublist.mpr hde
            exact List.Sublist.append h1 (List.Sublist.refl [u.name])
        · exact hrun'

theorem sublist_pair_trans (l : List String) (hnd : l.Nodup) (a b c : String)
    (h1 : List.Sublist [a, b] l) (h2 : List.Sublist [b, c] l) : List.Sublist [a, c] l := by
  induction l with
  | nil => simp at h1
  | cons x l ih =>
    obtain ⟨hx, hl⟩ := List.nodup_cons.mp hnd
    cases h1 with
    | cons _ h1' =>
      cases h2 with
      | cons _ h2' => exact (ih hl h1' h2').cons x
      | cons₂ _ h2' =>
        have hbl : b ∈ l := h1'.subset (by simp)
        exact absurd hbl hx
    | cons₂ _ h1' =>
      cases h2 with
      | cons _ h2' =>
        have hc : List.Sublist [c] l :=
          (List.Sublist.cons b (List.Sublist.refl [c])).trans h2'
        exact List.Sublist.cons₂ a hc
      | cons₂ _ h2' =>
        have hal : a ∈ l := h1'.subset (by simp)
        exact absurd hal hx

theorem sublist_pair_irrefl (l : List String) (hnd : l.Nodup) (a : String) :
    ¬ List.Sublist [a, a] l := by
  intro hs
  have h2 : List.count a [a, a] ≤ List.count a l := hs.count_le a
  have h1 : List.count a l ≤ 1 := List.nodup_iff_count_le_one.mp hnd a
  simp [List.count_cons] at h2
  omega

theorem transGen_pair {R : String → String → Prop} (l : List String) (hnd : l.Nodup)
    (hR : ∀ x y, R x y → List.Sublist [x, y] l) {u v : String}
    (h : Relation.TransGen R u v) : List.Sublist [u, v] l := by
  induction h with
  | single hr => exact hR _ _ hr
  | tail hsteps hr ih => exact sublist_pair_trans l hnd _ _ _ ih (hR _ _ hr)

/-- **C2.** The Stack Graph Builder (modelled from the spec; the repository
realizes it through external CDK `add_dependency` calls) emits units in
topological dependency order: on success every declared unit appears in the
plan and each unit appears only after everything it depends on; every input
whose declared edge relation contains a cycle is rejected with
`CyclicDependency` and no plan is emitted; on `[A, B→A, C→B]` it emits
`[A, B, C]` and on `[A→B, B→A]` it raises `CyclicDependency`. -/
theorem graph_builder_topological_and_cyclic :
    (∀ specs : List StackSpec, (specs.map (fun s => s.name)).Nodup →
      ∀ order, buildOrder specs = .ok order →
        (∀ s ∈ specs, s.name ∈ order) ∧
        (∀ s ∈ specs, ∀ d ∈ s.dependsOn, d ∈ specNames specs →
          List.Sublist [d, s.name] order)) ∧
    (∀ specs : List StackSpec, (specs.map (fun s => s.name)).Nodup →
      (∃ u, Relation.TransGen (DepEdge specs) u u) →
      buildOrder specs = .error .cyclicDependency) ∧
    buildOrder [⟨"A", []⟩, ⟨"B", ["A"]⟩, ⟨"C", ["B"]⟩] = .ok ["A", "B", "C"] ∧
    buildOrder [⟨"A", ["B"]⟩, ⟨"B", ["A"]⟩] = .error .cyclicDependency := by
  have hsound : ∀ specs : List StackSpec, (specs.map (fun s => s.name)).Nodup →
      ∀ order, buildOrder specs = .ok order →
        order.Nodup ∧ (∀ s ∈ specs, s.name ∈ order) ∧
        (∀ s ∈ specs, ∀ d ∈ s.dependsOn, d ∈ specNames specs →
          List.Sublist [d, s.name] order) := by
    intro specs hnd order hb
    refine emitLoop_sound specs hnd specs.length specs [] order
      (fun s hs => hs) hnd
      (fun s _ h => absurd h (List.not_mem_nil _))
      (fun s hs => Or.inr hs)
      List.nodup_nil
      (fun s _ h => absurd h (List.not_mem_nil _))
      hb
  refine ⟨?_, ?_, rfl, rfl⟩
  · intro specs hnd order hb
    exact ⟨(hsound specs hnd order hb).2.1, (hsound specs hnd order hb).2.2⟩
  · intro specs hnd hcyc
    obtain ⟨u, hu⟩ := hcyc
    cases hb : buildOrder specs with
    | ok order =>
      obtain ⟨hond, _, htopo⟩ := hsound specs hnd order hb
      have hedge : ∀ x y, DepEdge specs x y → List.Sublist [x, y] order := by
        intro x y hxy
        obtain ⟨s, hs, hname, hdep, hdecl⟩ := hxy
        have := htopo s hs x hdep hdecl
        rwa [hname] at this
      exact absurd (transGen_pair order hond hedge hu) (sublist_pair_irrefl order hond u)
    | error e =>
      cases e
      rfl

theorem graph_builder_topological_and_cyclic_witness :
    buildOrder [⟨"A", ["B"]⟩, ⟨"B", ["A"]⟩] = .error .cyclicDependency :=
  graph_builder_topological_and_cyclic.2.1 [⟨"A", ["B"]⟩, ⟨"B", ["A"]⟩] (by decide)
    ⟨"A", Relation.TransGen.tail
      (Relation.TransGen.single
        ⟨⟨"B", ["A"]⟩, by decide, rfl, by decide, by decide⟩)
      ⟨⟨"A", ["B"]⟩, by decide, rfl, by decide, by decide⟩⟩
